import Mathlib

/-!
Shallow embedding of `src/core/src/qrcode/QRDecoder.cpp` (ZXing QR code
decoder) together with theorems settling the frozen claims about it.

Conventions of the embedding:
* `ByteArray` / `std::vector<int>` values are `List Nat`; integer casts
  (`static_cast<uint8_t>`) are `% 256`, bit masks are `&&&`.
* The `BitSource` is a `List Bool` of the remaining bits (MSB first);
  `readBits` returns the value and the remaining suffix, `none` standing for
  the out-of-range exception thrown by the C++ reader (which the outer
  `catch` in `DecodeBitStream` turns into `FormatError`).
* `std::wstring result` accumulation is a `List Nat` of code points;
  `TextDecoder::AppendLatin1` appends the byte values themselves.
* External collaborators of the decoder that are not part of `src/`
  (`TextDecoder`, `CharacterSetECI`, `DecodeMode::CharacterCountBits`, the
  Reed-Solomon decoder, `BitMatrixParser`, the `BitMatrix` mutators) are
  passed in as explicit parameters, so every theorem quantifies over every
  behaviour the external service may have; where a fixed definition is
  unavoidable it is modelled from the spec and marked as such.
* The do-while loop of `DecodeBitStream` is embedded with a fuel argument
  decremented once per iteration; every iteration consumes at least the
  4 mode-indicator bits, so the fuel `bits.length + 1` supplied by
  `DecodeBitStream` never runs out (theorem `decodeLoopF_fuel_irrelevant`
  below certifies that the chosen fuel is enough).
-/

/-- Modelled from the spec: the error kinds of `ErrorStatus.h` (not part of
`src/`): `NoError`, `FormatError`, `ChecksumError` plus the internal
`ReedSolomonError` that `CorrectErrors` remaps. -/
inductive ErrorStatus where
  | NoError
  | FormatError
  | ChecksumError
  | ReedSolomonError
  deriving DecidableEq, Repr

/-- Modelled from the spec: `StatusIsOK` holds exactly of `NoError`. -/
def StatusIsOK (s : ErrorStatus) : Bool := s == ErrorStatus.NoError

/-- Modelled from the spec: `StatusIsError` holds of everything but `NoError`. -/
def StatusIsError (s : ErrorStatus) : Bool := s != ErrorStatus.NoError

/-- Modelled from the spec: kind test used on the Reed-Solomon status. -/
def StatusIsKindOf (s k : ErrorStatus) : Bool := s == k

/-- Character sets that appear in the decoder; everything beyond the named
ones is `other`. `Unknown` is the sentinel of `CharacterSet::Unknown`. -/
inductive CharacterSet where
  | Unknown
  | GB2312
  | Shift_JIS
  | ISO8859_1
  | UTF8
  | other (n : Nat)
  deriving DecidableEq, Repr

/-- Segment modes of `QRDecodeMode.h`. -/
inductive Mode where
  | TERMINATOR
  | NUMERIC
  | ALPHANUMERIC
  | STRUCTURED_APPEND
  | BYTE
  | FNC1_FIRST_POSITION
  | ECI
  | KANJI
  | FNC1_SECOND_POSITION
  | HANZI
  deriving DecidableEq, Repr

/-- Modelled from the spec: the 4-bit mode indicator table of
`DecodeMode::ModeForBits` (`QRDecodeMode.h` is not part of `src/`); an
unassigned value makes the source throw, caught as `FormatError`. -/
def ModeForBits : Nat → Option Mode
  | 0 => some Mode.TERMINATOR
  | 1 => some Mode.NUMERIC
  | 2 => some Mode.ALPHANUMERIC
  | 3 => some Mode.STRUCTURED_APPEND
  | 4 => some Mode.BYTE
  | 5 => some Mode.FNC1_FIRST_POSITION
  | 7 => some Mode.ECI
  | 8 => some Mode.KANJI
  | 9 => some Mode.FNC1_SECOND_POSITION
  | 13 => some Mode.HANZI
  | _ => none

/-- Value of a bit list read MSB first. -/
def bitsToNat (bits : List Bool) : Nat :=
  bits.foldl (fun a b => 2 * a + (if b then 1 else 0)) 0

/-- Embedding of `BitSource::readBits(n)`: spec section 4.2 allows `n` in `[1, 32]` and
fails (throws, later remapped to `FormatError`) when fewer than `n` bits
remain; on success it returns the value of the next `n` bits MSB first and
the remaining stream. -/
def readBits (n : Nat) (bits : List Bool) : Option (Nat × List Bool) :=
  if 1 ≤ n ∧ n ≤ 32 ∧ n ≤ bits.length then
    some (bitsToNat (bits.take n), bits.drop n)
  else
    none

/-- Big-endian bit expansion of a value into `w` bits (test-input builder
and the byte-to-bit-stream conversion done by `BitSource`). -/
def natBits : Nat → Nat → List Bool
  | 0, _ => []
  | w + 1, n => natBits w (n / 2) ++ [n % 2 == 1]

/-- The bit stream backing `BitSource(bytes)`: each byte MSB first. -/
def bytesToBits (bytes : List Nat) : List Bool :=
  bytes.flatMap (fun b => natBits 8 b)

/-- The 45-entry table of `ToAlphaNumericChar` (ISO 18004 Table 5); an index
outside the table makes the source throw `std::out_of_range`, which the
caller's `catch` remaps to `FormatError` — modelled as `none`. -/
def ALPHANUMERIC_CHARS : List Nat :=
  [48, 49, 50, 51, 52, 53, 54, 55, 56, 57, 65, 66,
   67, 68, 69, 70, 71, 72, 73, 74, 75, 76, 77, 78,
   79, 80, 81, 82, 83, 84, 85, 86, 87, 88, 89, 90,
   32, 36, 37, 42, 43, 45, 46, 47, 58]

/-- Embedding of `ToAlphaNumericChar(value)`: table lookup, `none` for out of range. -/
def ToAlphaNumericChar (value : Nat) : Option Nat :=
  ALPHANUMERIC_CHARS.get? value

/-- The FNC1 post-processing loop of `DecodeAlphanumericSegment`
(lines 220-233 of the source), translated index-by-index: the loop walks the
buffer left to right; at `'%'` (37) followed by another `'%'` the source
calls `buffer.erase(i + 1)` — `std::string::erase` with a single `size_type`
argument, which erases every character from position `i + 1` through the end
of the string, after which `i + 1` equals the new length and the loop stops —
and an isolated `'%'` is overwritten with 0x1D (29). `acc` is the processed
prefix (positions before `i`), the second argument the rest of the buffer
from position `i` on. -/
def Fnc1Massage : List Nat → List Nat → List Nat
  | acc, [] => acc
  | acc, c :: rest =>
    if c = 37 then
      match rest with
      | 37 :: _ => acc ++ [37]
      | _ => Fnc1Massage (acc ++ [29]) rest
    else
      Fnc1Massage (acc ++ [c]) rest

/-- Pair/single reading loop of `DecodeAlphanumericSegment`: 11 bits per
pair of characters, 6 bits for a trailing single character. -/
def DecodeAlphanumericLoop : List Bool → Nat → List Nat →
    Except ErrorStatus (List Nat × List Bool)
  | bits, count + 2, buffer =>
    if bits.length < 11 then .error .FormatError else
    match readBits 11 bits with
    | none => .error .FormatError
    | some (nextTwoCharsBits, r) =>
      match ToAlphaNumericChar (nextTwoCharsBits / 45),
            ToAlphaNumericChar (nextTwoCharsBits % 45) with
      | some a, some b => DecodeAlphanumericLoop r count (buffer ++ [a, b])
      | _, _ => .error .FormatError
  | bits, 1, buffer =>
    if bits.length < 6 then .error .FormatError else
    match readBits 6 bits with
    | none => .error .FormatError
    | some (v, r) =>
      match ToAlphaNumericChar v with
      | some a => .ok (buffer ++ [a], r)
      | none => .error .FormatError
  | bits, 0, buffer => .ok (buffer, bits)

/-- Embedding of `DecodeAlphanumericSegment(bits, count, fc1InEffect, result)`: decode
`count` alphanumeric characters, massage the buffer when FNC1 is in effect,
then `TextDecoder::AppendLatin1` the buffer onto `result`. Returns the new
`result` and the remaining bits. -/
def DecodeAlphanumericSegment (bits : List Bool) (count : Nat)
    (fc1InEffect : Bool) (result : List Nat) :
    Except ErrorStatus (List Nat × List Bool) :=
  match DecodeAlphanumericLoop bits count [] with
  | .error e => .error e
  | .ok (buffer, r) =>
    let buffer := if fc1InEffect then Fnc1Massage [] buffer else buffer
    .ok (result ++ buffer, r)

/-- Digit-group reading loop of `DecodeNumericSegment`: 10 bits for three
digits while at least three characters remain, then 7 bits for two or 4 bits
for one; out-of-range group values are format errors. -/
def DecodeNumericLoop : List Bool → Nat → List Nat →
    Except ErrorStatus (List Nat × List Bool)
  | bits, count + 3, buffer =>
    if bits.length < 10 then .error .FormatError else
    match readBits 10 bits with
    | none => .error .FormatError
    | some (threeDigitsBits, r) =>
      if 1000 ≤ threeDigitsBits then .error .FormatError else
      match ToAlphaNumericChar (threeDigitsBits / 100),
            ToAlphaNumericChar (threeDigitsBits / 10 % 10),
            ToAlphaNumericChar (threeDigitsBits % 10) with
      | some a, some b, some c => DecodeNumericLoop r count (buffer ++ [a, b, c])
      | _, _, _ => .error .FormatError
  | bits, 2, buffer =>
    if bits.length < 7 then .error .FormatError else
    match readBits 7 bits with
    | none => .error .FormatError
    | some (twoDigitsBits, r) =>
      if 100 ≤ twoDigitsBits then .error .FormatError else
      match ToAlphaNumericChar (twoDigitsBits / 10),
            ToAlphaNumericChar (twoDigitsBits % 10) with
      | some a, some b => .ok (buffer ++ [a, b], r)
      | _, _ => .error .FormatError
  | bits, 1, buffer =>
    if bits.length < 4 then .error .FormatError else
    match readBits 4 bits with
    | none => .error .FormatError
    | some (digitBits, r) =>
      if 10 ≤ digitBits then .error .FormatError else
      match ToAlphaNumericChar digitBits with
      | some a => .ok (buffer ++ [a], r)
      | none => .error .FormatError
  | bits, 0, buffer => .ok (buffer, bits)

/-- Embedding of `DecodeNumericSegment(bits, count, result)`: decode `count` digits and
`TextDecoder::AppendLatin1` them onto `result`. -/
def DecodeNumericSegment (bits : List Bool) (count : Nat) (result : List Nat) :
    Except ErrorStatus (List Nat × List Bool) :=
  match DecodeNumericLoop bits count [] with
  | .error e => .error e
  | .ok (buffer, r) => .ok (result ++ buffer, r)

/-- External collaborators of `DecodeBitStream`, passed in by the caller:
the character-set service of spec section 6 (`TextDecoder::Append` decodes
`bytes` under a charset and appends the resulting code points — its decoded
string is `dec charset bytes` — together with `GuessEncoding`,
`CharacterSetECI::CharsetFromName` and `CharsetFromValue`), the
per-version character-count-bit widths `DecodeMode::CharacterCountBits`
(already applied to the version), and the decode hint string. -/
structure Env where
  dec : CharacterSet → List Nat → List Nat
  guessEncoding : List Nat → CharacterSet
  charsetFromName : String → CharacterSet
  charsetFromValue : Nat → CharacterSet
  ccb : Mode → Nat
  hintedCharset : String

/-- The byte-reading loop of `DecodeByteSegment`: `count` reads of 8 bits. -/
def readByteList : List Bool → Nat → Option (List Nat × List Bool)
  | bits, 0 => some ([], bits)
  | bits, count + 1 =>
    match readBits 8 bits with
    | none => none
    | some (b, r) =>
      match readByteList r count with
      | none => none
      | some (bs, r2) => some (b :: bs, r2)

/-- Embedding of `DecodeByteSegment(bits, count, currentCharset, hintedCharset, result,
byteSegments)`: read `count` bytes, choose the effective charset (current,
else hinted by name, else guessed), append the decoded text onto `result`
and push the raw bytes onto `byteSegments`. -/
def DecodeByteSegment (env : Env) (bits : List Bool) (count : Nat)
    (currentCharset : CharacterSet) (result : List Nat)
    (byteSegments : List (List Nat)) :
    Except ErrorStatus (List Nat × List (List Nat) × List Bool) :=
  if 8 * count > bits.length then .error .FormatError else
  match readByteList bits count with
  | none => .error .FormatError
  | some (readBytes, r) =>
    let cs :=
      if currentCharset = CharacterSet.Unknown then
        let csA :=
          if ¬ env.hintedCharset = "" then env.charsetFromName env.hintedCharset
          else currentCharset
        if csA = CharacterSet.Unknown then env.guessEncoding readBytes else csA
      else currentCharset
    .ok (result ++ env.dec cs readBytes, byteSegments ++ [readBytes], r)

/-- Character loop of `DecodeKanjiSegment`: each 13-bit group is assembled
into a two-byte Shift_JIS code (`hi = v / 0xC0`, `lo = v % 0xC0`, offset
0x8140 below 0x1F00 and 0xC140 above); the two bytes are the `uint8_t`
casts of the assembled value. -/
def DecodeKanjiLoop : List Bool → Nat → List Nat → Option (List Nat × List Bool)
  | bits, 0, buffer => some (buffer, bits)
  | bits, count + 1, buffer =>
    match readBits 13 bits with
    | none => none
    | some (twoBytes, r) =>
      let assembled0 := ((twoBytes / 0xC0) <<< 8) ||| (twoBytes % 0xC0)
      let assembled :=
        if assembled0 < 0x1F00 then assembled0 + 0x8140 else assembled0 + 0xC140
      DecodeKanjiLoop r count (buffer ++ [(assembled >>> 8) % 256, assembled % 256])

/-- Embedding of `DecodeKanjiSegment(bits, count, result)`: guard `count * 13` against the
available bits, assemble the Shift_JIS byte pairs and append their decoded
text onto `result`. -/
def DecodeKanjiSegment (env : Env) (bits : List Bool) (count : Nat)
    (result : List Nat) : Except ErrorStatus (List Nat × List Bool) :=
  if count * 13 > bits.length then .error .FormatError else
  match DecodeKanjiLoop bits count [] with
  | none => .error .FormatError
  | some (buffer, r) => .ok (result ++ env.dec CharacterSet.Shift_JIS buffer, r)

/-- Character loop of `DecodeHanziSegment`: each 13-bit group is assembled
into a two-byte GB2312 code (`hi = v / 0x60`, `lo = v % 0x60`, offset 0xA1A1
below 0x3BF and 0xA6A1 above). -/
def DecodeHanziLoop : List Bool → Nat → List Nat → Option (List Nat × List Bool)
  | bits, 0, buffer => some (buffer, bits)
  | bits, count + 1, buffer =>
    match readBits 13 bits with
    | none => none
    | some (twoBytes, r) =>
      let assembled0 := ((twoBytes / 0x60) <<< 8) ||| (twoBytes % 0x60)
      let assembled :=
        if assembled0 < 0x3BF then assembled0 + 0xA1A1 else assembled0 + 0xA6A1
      DecodeHanziLoop r count (buffer ++ [(assembled >>> 8) &&& 0xFF, assembled &&& 0xFF])

/-- Embedding of `DecodeHanziSegment(bits, count, result)`: guard `count * 13` against the
available bits, assemble the GB2312 byte pairs and append their decoded text
onto `result`. -/
def DecodeHanziSegment (env : Env) (bits : List Bool) (count : Nat)
    (result : List Nat) : Except ErrorStatus (List Nat × List Bool) :=
  if count * 13 > bits.length then .error .FormatError else
  match DecodeHanziLoop bits count [] with
  | none => .error .FormatError
  | some (buffer, r) => .ok (result ++ env.dec CharacterSet.GB2312 buffer, r)

/-- Embedding of `ParseECIValue(bits)`: 1 to 3 byte variable-length ECI designator; the
high bits of the first byte select the length, anything else is a format
error. -/
def ParseECIValue (bits : List Bool) : Except ErrorStatus (Nat × List Bool) :=
  match readBits 8 bits with
  | none => .error .FormatError
  | some (firstByte, r1) =>
    if firstByte &&& 0x80 = 0 then
      .ok (firstByte &&& 0x7F, r1)
    else if firstByte &&& 0xC0 = 0x80 then
      match readBits 8 r1 with
      | none => .error .FormatError
      | some (secondByte, r2) => .ok (((firstByte &&& 0x3F) <<< 8) ||| secondByte, r2)
    else if firstByte &&& 0xE0 = 0xC0 then
      match readBits 16 r1 with
      | none => .error .FormatError
      | some (secondThirdBytes, r2) => .ok (((firstByte &&& 0x1F) <<< 16) ||| secondThirdBytes, r2)
    else .error .FormatError

/-- The `GB2312_SUBSET` constant of `DecodeBitStream`. -/
def GB2312_SUBSET : Nat := 1

/-- The state carried across loop iterations of `DecodeBitStream`: the
accumulating text, the raw BYTE-mode segments, the structured-append fields
(initially -1), the current ECI charset and the FNC1 flag. -/
structure LoopState where
  result : List Nat
  byteSegments : List (List Nat)
  symbolSequence : Int
  parityData : Int
  currentCharset : CharacterSet
  fc1InEffect : Bool
  deriving DecidableEq, Repr

/-- One non-terminator dispatch of the `DecodeBitStream` loop body: given
the mode already read, consume the segment from the stream and update the
loop state exactly as the corresponding branch of the source does.
(`TERMINATOR` never reaches this function; its clause is inert.) -/
def decodeSegmentStep (env : Env) (mode : Mode) (bits : List Bool)
    (st : LoopState) : Except ErrorStatus (LoopState × List Bool) :=
  match mode with
  | .TERMINATOR => .ok (st, bits)
  | .FNC1_FIRST_POSITION => .ok ({st with fc1InEffect := true}, bits)
  | .FNC1_SECOND_POSITION => .ok ({st with fc1InEffect := true}, bits)
  | .STRUCTURED_APPEND =>
    if bits.length < 16 then .error .FormatError else
    match readBits 8 bits with
    | none => .error .FormatError
    | some (symbolSequence, r1) =>
      match readBits 8 r1 with
      | none => .error .FormatError
      | some (parityData, r2) =>
        .ok ({st with symbolSequence := Int.ofNat symbolSequence,
                      parityData := Int.ofNat parityData}, r2)
  | .ECI =>
    match ParseECIValue bits with
    | .error e => .error e
    | .ok (value, r1) =>
      let cs := env.charsetFromValue value
      if cs = CharacterSet.Unknown then .error .FormatError
      else .ok ({st with currentCharset := cs}, r1)
  | .HANZI =>
    match readBits 4 bits with
    | none => .error .FormatError
    | some (subset, r1) =>
      match readBits (env.ccb Mode.HANZI) r1 with
      | none => .error .FormatError
      | some (countHanzi, r2) =>
        if subset = GB2312_SUBSET then
          match DecodeHanziSegment env r2 countHanzi st.result with
          | .error e => .error e
          | .ok (res, r3) => .ok ({st with result := res}, r3)
        else .ok (st, r2)
  | m =>
    match readBits (env.ccb m) bits with
    | none => .error .FormatError
    | some (count, r1) =>
      match m with
      | .NUMERIC =>
        match DecodeNumericSegment r1 count st.result with
        | .error e => .error e
        | .ok (res, r2) => .ok ({st with result := res}, r2)
      | .ALPHANUMERIC =>
        match DecodeAlphanumericSegment r1 count st.fc1InEffect st.result with
        | .error e => .error e
        | .ok (res, r2) => .ok ({st with result := res}, r2)
      | .BYTE =>
        match DecodeByteSegment env r1 count st.currentCharset st.result st.byteSegments with
        | .error e => .error e
        | .ok (res, segs, r2) => .ok ({st with result := res, byteSegments := segs}, r2)
      | .KANJI =>
        match DecodeKanjiSegment env r1 count st.result with
        | .error e => .error e
        | .ok (res, r2) => .ok ({st with result := res}, r2)
      | _ => .error .FormatError

/-- The do-while loop of `DecodeBitStream`: fewer than 4 remaining bits are
treated as an implicit `TERMINATOR` and end the loop successfully; otherwise
a 4-bit mode indicator is read (an unassigned value throws, hence
`FormatError`) and a non-terminator mode dispatches to `decodeSegmentStep`.
The fuel counts loop iterations; since every iteration consumes at least the
4 mode bits, `bits.length + 1` iterations always suffice (certified by
`decodeLoopF_fuel_irrelevant`), so the out-of-fuel clause is unreachable for
the fuel supplied by `DecodeBitStream`. -/
def decodeLoopF (env : Env) : Nat → List Bool → LoopState →
    Except ErrorStatus LoopState
  | 0, _, _ => .error .FormatError
  | fuel + 1, bits, st =>
    if bits.length < 4 then .ok st
    else
      match readBits 4 bits with
      | none => .error .FormatError
      | some (mv, r0) =>
        match ModeForBits mv with
        | none => .error .FormatError
        | some Mode.TERMINATOR => .ok st
        | some m =>
          match decodeSegmentStep env m r0 st with
          | .error e => .error e
          | .ok (st2, r2) => decodeLoopF env fuel r2 st2

/-- The output aggregate populated by `DecodeBitStream` on success. -/
structure DecoderResult where
  rawBytes : List Nat
  text : List Nat
  byteSegments : List (List Nat)
  ecLevel : String
  structuredAppendSequenceNumber : Int
  structuredAppendParity : Int
  deriving DecidableEq, Repr

/-- Embedding of `DecodeBitStream(bytes, version, ecLevel, hintedCharset, result)`: run
the segment loop over the bit stream of `bytes` and, on success, populate
the `DecoderResult` fields exactly as lines 414-419 of the source do
(`ecLevel` arrives already converted to its label by `ToString`). -/
def DecodeBitStream (env : Env) (bytes : List Nat) (ecLevel : String) :
    Except ErrorStatus DecoderResult :=
  let bits := bytesToBits bytes
  let st0 : LoopState := ⟨[], [], -1, -1, CharacterSet.Unknown, false⟩
  match decodeLoopF env (bits.length + 1) bits st0 with
  | .error e => .error e
  | .ok st =>
    .ok { rawBytes := bytes, text := st.result, byteSegments := st.byteSegments,
          ecLevel := ecLevel,
          structuredAppendSequenceNumber := st.symbolSequence,
          structuredAppendParity := st.parityData }

/-- Follows the words of the spec's mode table for claim C2, to be compared
with `decodeLoopF` (which follows the source): identical loop except that
the `FNC1_SECOND_POSITION` branch, after setting the FNC1 flag, consumes an
8-bit application indicator from the stream before the next mode indicator
is read. -/
def decodeLoopC2F (env : Env) : Nat → List Bool → LoopState →
    Except ErrorStatus LoopState
  | 0, _, _ => .error .FormatError
  | fuel + 1, bits, st =>
    if bits.length < 4 then .ok st
    else
      match readBits 4 bits with
      | none => .error .FormatError
      | some (mv, r0) =>
        match ModeForBits mv with
        | none => .error .FormatError
        | some Mode.TERMINATOR => .ok st
        | some Mode.FNC1_SECOND_POSITION =>
          match readBits 8 r0 with
          | none => .error .FormatError
          | some (_, r1) => decodeLoopC2F env fuel r1 {st with fc1InEffect := true}
        | some m =>
          match decodeSegmentStep env m r0 st with
          | .error e => .error e
          | .ok (st2, r2) => decodeLoopC2F env fuel r2 st2

/-- Follows the words of the spec for claim C6, to be compared with
`DecodeNumericLoop` (which follows the source): read `n` 10-bit groups, each
encoding three digits and each required to be below 1000, and return the
ASCII digit characters (48 plus the digit value). -/
def readNumTriples : Nat → List Bool → Except ErrorStatus (List Nat × List Bool)
  | 0, bits => .ok ([], bits)
  | n + 1, bits =>
    if bits.length < 10 then .error .FormatError else
    match readBits 10 bits with
    | none => .error .FormatError
    | some (v, r) =>
      if 1000 ≤ v then .error .FormatError else
      match readNumTriples n r with
      | .error e => .error e
      | .ok (ds, r2) => .ok ([48 + v / 100, 48 + v / 10 % 10, 48 + v % 10] ++ ds, r2)

/-- Follows the words of the spec for claim C6, to be compared with
`DecodeNumericSegment` (which follows the source): a NUMERIC segment of
character count `c` reads `c / 3` 10-bit triples, then for `c % 3 = 2` one
7-bit group (below 100) and for `c % 3 = 1` one 4-bit group (below 10), and
appends the decoded ASCII digits onto `result` as Latin-1. -/
def NumericSegmentSpec (bits : List Bool) (c : Nat) (result : List Nat) :
    Except ErrorStatus (List Nat × List Bool) :=
  match readNumTriples (c / 3) bits with
  | .error e => .error e
  | .ok (ds, r1) =>
    if c % 3 = 2 then
      if r1.length < 7 then .error .FormatError else
      match readBits 7 r1 with
      | none => .error .FormatError
      | some (v, r2) =>
        if 100 ≤ v then .error .FormatError
        else .ok (result ++ ds ++ [48 + v / 10, 48 + v % 10], r2)
    else if c % 3 = 1 then
      if r1.length < 4 then .error .FormatError else
      match readBits 4 r1 with
      | none => .error .FormatError
      | some (v, r2) =>
        if 10 ≤ v then .error .FormatError
        else .ok (result ++ ds ++ [48 + v], r2)
    else .ok (result ++ ds, r1)

/-- Embedding of `CorrectErrors(codewordBytes, numDataCodewords)`: copy the block into an
int array, run the Reed-Solomon decoder (`rs`, given the ints and the number
of EC codewords, returns a status and the in-place-corrected ints; the
decoder itself lives outside `src/` and is therefore a parameter), and on
success copy the first `numDataCodewords` corrected ints back into the byte
array; a `ReedSolomonError` is remapped to `ChecksumError`; on any failure
the byte array is untouched. Returns the status and the resulting bytes. -/
def CorrectErrors (rs : List Nat → Nat → ErrorStatus × List Nat)
    (codewordBytes : List Nat) (numDataCodewords : Nat) :
    ErrorStatus × List Nat :=
  let codewordsInts := codewordBytes.map (fun b => b &&& 0xFF)
  let numECCodewords := codewordBytes.length - numDataCodewords
  let statusInts := rs codewordsInts numECCodewords
  if StatusIsOK statusInts.1 then
    (statusInts.1,
      (statusInts.2.take numDataCodewords).map (fun v => v % 256) ++
        codewordBytes.drop numDataCodewords)
  else if StatusIsKindOf statusInts.1 ErrorStatus.ReedSolomonError then
    (ErrorStatus.ChecksumError, codewordBytes)
  else
    (statusInts.1, codewordBytes)

/-- One deinterleaved RS block of `QRDataBlock.h`: the data codeword count
and the data+EC codeword buffer. -/
structure DataBlock where
  numDataCodewords : Nat
  codewords : List Nat
  deriving DecidableEq, Repr

/-- The error-correction loop of `DoDecode` (lines 449-462 of the source):
correct every block in order with `CorrectErrors` and concatenate the data
prefixes into the result byte stream; the first failing block aborts the
whole decode with its (already remapped) error status. -/
def DoDecodeBlocks (rs : List Nat → Nat → ErrorStatus × List Nat) :
    List DataBlock → Except ErrorStatus (List Nat)
  | [] => .ok []
  | b :: rest =>
    let statusBytes := CorrectErrors rs b.codewords b.numDataCodewords
    if StatusIsOK statusBytes.1 then
      match DoDecodeBlocks rs rest with
      | .error e => .error e
      | .ok tail => .ok (statusBytes.2.take b.numDataCodewords ++ tail)
    else .error statusBytes.1

/-- Matrix-level collaborators of `Decoder::Decode`, abstract over the
matrix type `μ`, the version-plus-format payload `ν` and the result payload
`ρ` (all of them live outside `src/`): `parseVersionInfo m mirrored` is
`BitMatrixParser::ParseVersionInfo` (returning version and format info on
success), `reMask` is `ReMask` (unmask with the format's data mask),
`mirror` is `BitMatrix::mirror`, and `doDecode m vf res` is `DoDecode`
(which may mutate the caller's result object, hence takes and returns a
`ρ`). -/
structure DriverOps (μ ν ρ : Type) where
  parseVersionInfo : μ → Bool → Except ErrorStatus ν
  reMask : μ → ν → μ
  mirror : μ → μ
  doDecode : μ → ν → ρ → ErrorStatus × ρ

/-- Observable outcome of `Decoder::Decode`: the caller's input matrix after
the call (the C++ takes it by const reference and mutates only the local
clone), the returned status, the caller's result object after the call, and
whether the result was annotated with the mirrored `DecoderMetadata`. -/
structure DecodeOut (μ ρ : Type) where
  callerMatrix : μ
  status : ErrorStatus
  result : ρ
  mirrored : Bool

/-- Second half of `Decoder::Decode` (lines 501-520): parse version and
format in mirrored orientation on the current local matrix; on success
mirror the local matrix, unmask it, run `DoDecode`, and annotate the result
with `mirrored = true` if and only if that decode succeeds; on failure
return the parse error. -/
def secondDecodeAttempt (ops : DriverOps μ ν ρ) (bitsIn : μ) (bits : μ)
    (res : ρ) : DecodeOut μ ρ :=
  match ops.parseVersionInfo bits true with
  | .error e => ⟨bitsIn, e, res, false⟩
  | .ok vf2 =>
    let bitsM := ops.mirror bits
    let bitsM2 := ops.reMask bitsM vf2
    let statusRes := ops.doDecode bitsM2 vf2 res
    match statusRes.1 with
    | ErrorStatus.NoError => ⟨bitsIn, ErrorStatus.NoError, statusRes.2, true⟩
    | e => ⟨bitsIn, e, statusRes.2, false⟩

/-- Embedding of `Decoder::Decode(bits_, hintedCharset, result)` (lines 476-521): clone
the caller's matrix (`bits_.copyTo(bits)`; every subsequent mutation —
`ReMask`, `mirror` — is applied to the clone `bits` only), parse version and
format, unmask and decode; on success return immediately (no mirrored
annotation). Otherwise revert the clone's data mask (the source guards the
revert by `version != nullptr`; a failed first parse leaves the version
unset, so the revert happens exactly when the first parse succeeded) and run
the mirrored second attempt. -/
def DecoderDecode (ops : DriverOps μ ν ρ) (bitsIn : μ) (res0 : ρ) :
    DecodeOut μ ρ :=
  let bits := bitsIn
  match ops.parseVersionInfo bits false with
  | .ok vf1 =>
    let bits1 := ops.reMask bits vf1
    let statusRes := ops.doDecode bits1 vf1 res0
    match statusRes.1 with
    | ErrorStatus.NoError => ⟨bitsIn, ErrorStatus.NoError, statusRes.2, false⟩
    | _ =>
      let bits2 := ops.reMask bits1 vf1
      secondDecodeAttempt ops bitsIn bits2 statusRes.2
  | .error _ =>
    secondDecodeAttempt ops bitsIn bits res0

/-- An environment used by the concrete witness instances: the external
character-set service decodes bytes as their own code points, guesses
ISO-8859-1, resolves no names, and every character-count field is 8 bits
wide. -/
def envW : Env :=
  { dec := fun _ bs => bs
    guessEncoding := fun _ => CharacterSet.ISO8859_1
    charsetFromName := fun _ => CharacterSet.Unknown
    charsetFromValue := fun _ => CharacterSet.Unknown
    ccb := fun _ => 8
    hintedCharset := "" }

/-- The initial loop state of `DecodeBitStream`. -/
def initialLoopState : LoopState := ⟨[], [], -1, -1, CharacterSet.Unknown, false⟩

/-- Driver collaborators used by the concrete witness instance of the
mirror-retry claim: both orientations parse, every decode succeeds and
bumps the result payload. -/
def opsW : DriverOps Nat Nat Nat :=
  { parseVersionInfo := fun _ mirrored => if mirrored then .ok 1 else .ok 0
    reMask := fun m _ => m + 1
    mirror := fun m => m + 10
    doDecode := fun _ _ res => (ErrorStatus.NoError, res + 5) }

/-- A Reed-Solomon stand-in used by the concrete witness instance of the
error-correction claim: it always reports an uncorrectable block. -/
def rsFailW : List Nat → Nat → ErrorStatus × List Nat :=
  fun ints _ => (ErrorStatus.ReedSolomonError, ints)

/-- A Reed-Solomon stand-in whose correction always succeeds and adds one to
every coefficient. -/
def rsOkW : List Nat → Nat → ErrorStatus × List Nat :=
  fun ints _ => (ErrorStatus.NoError, ints.map (fun v => v + 1))

/-- Reading exactly the bits of `l` from the stream `l ++ r` yields the
value of `l` and leaves `r`. -/
theorem readBits_exact (n : Nat) (l r : List Bool) (hl : l.length = n)
    (h1 : 1 ≤ n) (h2 : n ≤ 32) : readBits n (l ++ r) = some (bitsToNat l, r) := by
  subst hl
  simp [readBits, h1, h2, List.take_left, List.drop_left, Nat.le_add_right]

/-- A successful `readBits` leaves exactly the input minus the `n` bits
read. -/
theorem readBits_len_eq (n : Nat) (bits : List Bool) (p : Nat × List Bool)
    (h : readBits n bits = some p) : p.2.length = bits.length - n := by
  unfold readBits at h
  split at h
  · injection h with h1
    subst h1
    simp
  · exact Option.noConfusion h

/-- A successful `readBits` never lengthens the stream. -/
theorem readBits_len (n : Nat) (bits : List Bool) (p : Nat × List Bool)
    (h : readBits n bits = some p) : p.2.length ≤ bits.length := by
  rw [readBits_len_eq n bits p h]
  omega

/-- The byte-reading loop never lengthens the stream. -/
theorem readByteList_len :
    ∀ (count : Nat) (bits : List Bool) (p : List Nat × List Bool),
      readByteList bits count = some p → p.2.length ≤ bits.length := by
  intro count
  induction count with
  | zero =>
    intro bits p h
    simp only [readByteList] at h
    injection h with h1
    subst h1
    exact Nat.le_refl _
  | succ c ih =>
    intro bits p h
    obtain ⟨pb, pr⟩ := p
    simp only [readByteList] at h
    rcases hrb : readBits 8 bits with _ | ⟨b, r⟩ <;> rw [hrb] at h
    · exact Option.noConfusion h
    · simp at h
      rcases hrec : readByteList r c with _ | ⟨bs, r2⟩ <;> rw [hrec] at h
      · exact Option.noConfusion h
      · simp at h
        obtain ⟨h1, h2⟩ := h
        subst h2
        exact Nat.le_trans (ih r (bs, r2) hrec) (readBits_len 8 bits (b, r) hrb)

/-- The Hanzi character loop never lengthens the stream. -/
theorem hanziLoop_len :
    ∀ (count : Nat) (bits : List Bool) (buffer : List Nat) (p : List Nat × List Bool),
      DecodeHanziLoop bits count buffer = some p → p.2.length ≤ bits.length := by
  intro count
  induction count with
  | zero =>
    intro bits buffer p h
    simp only [DecodeHanziLoop] at h
    injection h with h1
    subst h1
    exact Nat.le_refl _
  | succ c ih =>
    intro bits buffer p h
    simp only [DecodeHanziLoop] at h
    rcases hrb : readBits 13 bits with _ | ⟨v, r⟩ <;> rw [hrb] at h
    · exact Option.noConfusion h
    · exact Nat.le_trans (ih r _ p h) (readBits_len 13 bits (v, r) hrb)

/-- The Kanji character loop never lengthens the stream. -/
theorem kanjiLoop_len :
    ∀ (count : Nat) (bits : List Bool) (buffer : List Nat) (p : List Nat × List Bool),
      DecodeKanjiLoop bits count buffer = some p → p.2.length ≤ bits.length := by
  intro count
  induction count with
  | zero =>
    intro bits buffer p h
    simp only [DecodeKanjiLoop] at h
    injection h with h1
    subst h1
    exact Nat.le_refl _
  | succ c ih =>
    intro bits buffer p h
    simp only [DecodeKanjiLoop] at h
    rcases hrb : readBits 13 bits with _ | ⟨v, r⟩ <;> rw [hrb] at h
    · exact Option.noConfusion h
    · exact Nat.le_trans (ih r _ p h) (readBits_len 13 bits (v, r) hrb)

/-- The alphanumeric reading loop never lengthens the stream. -/
theorem alphanumericLoop_len :
    ∀ (count : Nat) (bits : List Bool) (buffer : List Nat) (p : List Nat × List Bool),
      DecodeAlphanumericLoop bits count buffer = .ok p → p.2.length ≤ bits.length := by
  intro count
  induction count using Nat.strong_induction_on with
  | _ count ih =>
    intro bits buffer p h
    obtain ⟨pb, pr⟩ := p
    rcases count with _ | (_ | c)
    · simp only [DecodeAlphanumericLoop] at h
      injection h with h1
      injection h1 with h1 h2
      subst h2
      exact Nat.le_refl _
    · simp only [DecodeAlphanumericLoop] at h
      by_cases h6 : bits.length < 6
      · rw [if_pos h6] at h
        exact Except.noConfusion h
      · rw [if_neg h6] at h
        rcases hrb : readBits 6 bits with _ | ⟨v, r⟩ <;> rw [hrb] at h
        · exact Except.noConfusion h
        · simp at h
          rcases hta : ToAlphaNumericChar v with _ | a <;> rw [hta] at h
          · exact Except.noConfusion h
          · simp at h
            obtain ⟨h1, h2⟩ := h
            subst h2
            exact readBits_len 6 bits (v, r) hrb
    · simp only [DecodeAlphanumericLoop] at h
      by_cases h11 : bits.length < 11
      · rw [if_pos h11] at h
        exact Except.noConfusion h
      · rw [if_neg h11] at h
        rcases hrb : readBits 11 bits with _ | ⟨v, r⟩ <;> rw [hrb] at h
        · exact Except.noConfusion h
        · simp at h
          rcases hta : ToAlphaNumericChar (v / 45) with _ | a <;> rw [hta] at h
          · exact Except.noConfusion h
          · rcases htb : ToAlphaNumericChar (v % 45) with _ | b <;> rw [htb] at h
            · exact Except.noConfusion h
            · exact Nat.le_trans (ih c (by omega) r _ (pb, pr) h)
                (readBits_len 11 bits (v, r) hrb)

/-- The numeric reading loop never lengthens the stream. -/
theorem numericLoop_len :
    ∀ (count : Nat) (bits : List Bool) (buffer : List Nat) (p : List Nat × List Bool),
      DecodeNumericLoop bits count buffer = .ok p → p.2.length ≤ bits.length := by
  intro count
  induction count using Nat.strong_induction_on with
  | _ count ih =>
    intro bits buffer p h
    obtain ⟨pb, pr⟩ := p
    rcases count with _ | (_ | (_ | c))
    · simp only [DecodeNumericLoop] at h
      injection h with h1
      injection h1 with h1 h2
      subst h2
      exact Nat.le_refl _
    · simp only [DecodeNumericLoop] at h
      by_cases h4 : bits.length < 4
      · rw [if_pos h4] at h
        exact Except.noConfusion h
      · rw [if_neg h4] at h
        rcases hrb : readBits 4 bits with _ | ⟨v, r⟩ <;> rw [hrb] at h
        · exact Except.noConfusion h
        · simp at h
          by_cases hv : 10 ≤ v
          · rw [if_pos hv] at h
            exact Except.noConfusion h
          · rw [if_neg hv] at h
            rcases hta : ToAlphaNumericChar v with _ | a <;> rw [hta] at h
            · exact Except.noConfusion h
            · simp at h
              obtain ⟨h1, h2⟩ := h
              subst h2
              exact readBits_len 4 bits (v, r) hrb
    · simp only [DecodeNumericLoop] at h
      by_cases h7 : bits.length < 7
      · rw [if_pos h7] at h
        exact Except.noConfusion h
      · rw [if_neg h7] at h
        rcases hrb : readBits 7 bits with _ | ⟨v, r⟩ <;> rw [hrb] at h
        · exact Except.noConfusion h
        · simp at h
          by_cases hv : 100 ≤ v
          · rw [if_pos hv] at h
            exact Except.noConfusion h
          · rw [if_neg hv] at h
            rcases hta : ToAlphaNumericChar (v / 10) with _ | a <;> rw [hta] at h
            · exact Except.noConfusion h
            · rcases htb : ToAlphaNumericChar (v % 10) with _ | b <;> rw [htb] at h
              · exact Except.noConfusion h
              · simp at h
                obtain ⟨h1, h2⟩ := h
                subst h2
                exact readBits_len 7 bits (v, r) hrb
    · simp only [DecodeNumericLoop] at h
      by_cases h10 : bits.length < 10
      · rw [if_pos h10] at h
        exact Except.noConfusion h
      · rw [if_neg h10] at h
        rcases hrb : readBits 10 bits with _ | ⟨v, r⟩ <;> rw [hrb] at h
        · exact Except.noConfusion h
        · simp at h
          by_cases hv : 1000 ≤ v
          · rw [if_pos hv] at h
            exact Except.noConfusion h
          · rw [if_neg hv] at h
            rcases hta : ToAlphaNumericChar (v / 100) with _ | a <;> rw [hta] at h
            · exact Except.noConfusion h
            · rcases htb : ToAlphaNumericChar (v / 10 % 10) with _ | b <;> rw [htb] at h
              · exact Except.noConfusion h
              · rcases htc : ToAlphaNumericChar (v % 10) with _ | d <;> rw [htc] at h
                · exact Except.noConfusion h
                · exact Nat.le_trans (ih c (by omega) r _ (pb, pr) h)
                    (readBits_len 10 bits (v, r) hrb)

/-- A successful numeric segment never lengthens the stream. -/
theorem DecodeNumericSegment_len (bits : List Bool) (count : Nat)
    (result : List Nat) (p : List Nat × List Bool)
    (h : DecodeNumericSegment bits count result = .ok p) :
    p.2.length ≤ bits.length := by
  obtain ⟨pb, pr⟩ := p
  simp only [DecodeNumericSegment] at h
  rcases hl : DecodeNumericLoop bits count [] with e | ⟨buf, r⟩ <;> rw [hl] at h
  · exact Except.noConfusion h
  · simp at h
    obtain ⟨h1, h2⟩ := h
    subst h2
    exact numericLoop_len count bits [] (buf, r) hl

/-- A successful alphanumeric segment never lengthens the stream. -/
theorem DecodeAlphanumericSegment_len (bits : List Bool) (count : Nat)
    (fc1InEffect : Bool) (result : List Nat) (p : List Nat × List Bool)
    (h : DecodeAlphanumericSegment bits count fc1InEffect result = .ok p) :
    p.2.length ≤ bits.length := by
  obtain ⟨pb, pr⟩ := p
  simp only [DecodeAlphanumericSegment] at h
  rcases hl : DecodeAlphanumericLoop bits count [] with e | ⟨buf, r⟩ <;> rw [hl] at h
  · exact Except.noConfusion h
  · simp at h
    obtain ⟨h1, h2⟩ := h
    subst h2
    exact alphanumericLoop_len count bits [] (buf, r) hl

/-- A successful byte segment never lengthens the stream. -/
theorem DecodeByteSegment_len (env : Env) (bits : List Bool) (count : Nat)
    (currentCharset : CharacterSet) (result : List Nat)
    (byteSegments : List (List Nat)) (p : List Nat × List (List Nat) × List Bool)
    (h : DecodeByteSegment env bits count currentCharset result byteSegments = .ok p) :
    p.2.2.length ≤ bits.length := by
  obtain ⟨pa, pbs, pr⟩ := p
  simp only [DecodeByteSegment] at h
  split at h
  · exact Except.noConfusion h
  · rcases hl : readByteList bits count with _ | ⟨bs, r⟩ <;> rw [hl] at h
    · exact Except.noConfusion h
    · simp at h
      obtain ⟨h1, h2, h3⟩ := h
      subst h3
      exact readByteList_len count bits (bs, r) hl

/-- A successful Kanji segment never lengthens the stream. -/
theorem DecodeKanjiSegment_len (env : Env) (bits : List Bool) (count : Nat)
    (result : List Nat) (p : List Nat × List Bool)
    (h : DecodeKanjiSegment env bits count result = .ok p) :
    p.2.length ≤ bits.length := by
  obtain ⟨pb, pr⟩ := p
  simp only [DecodeKanjiSegment] at h
  split at h
  · exact Except.noConfusion h
  · rcases hl : DecodeKanjiLoop bits count [] with _ | ⟨buf, r⟩ <;> rw [hl] at h
    · exact Except.noConfusion h
    · simp at h
      obtain ⟨h1, h2⟩ := h
      subst h2
      exact kanjiLoop_len count bits [] (buf, r) hl

/-- A successful Hanzi segment never lengthens the stream. -/
theorem DecodeHanziSegment_len (env : Env) (bits : List Bool) (count : Nat)
    (result : List Nat) (p : List Nat × List Bool)
    (h : DecodeHanziSegment env bits count result = .ok p) :
    p.2.length ≤ bits.length := by
  obtain ⟨pb, pr⟩ := p
  simp only [DecodeHanziSegment] at h
  split at h
  · exact Except.noConfusion h
  · rcases hl : DecodeHanziLoop bits count [] with _ | ⟨buf, r⟩ <;> rw [hl] at h
    · exact Except.noConfusion h
    · simp at h
      obtain ⟨h1, h2⟩ := h
      subst h2
      exact hanziLoop_len count bits [] (buf, r) hl

/-- A successful ECI designator read never lengthens the stream. -/
theorem ParseECIValue_len (bits : List Bool) (p : Nat × List Bool)
    (h : ParseECIValue bits = .ok p) : p.2.length ≤ bits.length := by
  obtain ⟨pv, pr⟩ := p
  simp only [ParseECIValue] at h
  rcases hrb : readBits 8 bits with _ | ⟨b, r1⟩ <;> rw [hrb] at h
  · exact Except.noConfusion h
  · simp at h
    by_cases c1 : b &&& 0x80 = 0
    · rw [if_pos c1] at h
      simp at h
      obtain ⟨h1, h2⟩ := h
      subst h2
      exact readBits_len 8 bits (b, r1) hrb
    · rw [if_neg c1] at h
      by_cases c2 : b &&& 0xC0 = 0x80
      · rw [if_pos c2] at h
        rcases hrb2 : readBits 8 r1 with _ | ⟨b2, r2⟩ <;> rw [hrb2] at h
        · exact Except.noConfusion h
        · simp at h
          obtain ⟨h1, h2⟩ := h
          subst h2
          exact Nat.le_trans (readBits_len 8 r1 (b2, r2) hrb2) (readBits_len 8 bits (b, r1) hrb)
      · rw [if_neg c2] at h
        by_cases c3 : b &&& 0xE0 = 0xC0
        · rw [if_pos c3] at h
          rcases hrb2 : readBits 16 r1 with _ | ⟨b2, r2⟩ <;> rw [hrb2] at h
          · exact Except.noConfusion h
          · simp at h
            obtain ⟨h1, h2⟩ := h
            subst h2
            exact Nat.le_trans (readBits_len 16 r1 (b2, r2) hrb2) (readBits_len 8 bits (b, r1) hrb)
        · rw [if_neg c3] at h
          exact Except.noConfusion h

/-- A successful segment dispatch never lengthens the stream. -/
theorem decodeSegmentStep_len (env : Env) (mode : Mode) (bits : List Bool)
    (st : LoopState) (p : LoopState × List Bool)
    (h : decodeSegmentStep env mode bits st = .ok p) :
    p.2.length ≤ bits.length := by
  obtain ⟨st2, r2⟩ := p
  cases mode with
  | TERMINATOR =>
    simp only [decodeSegmentStep] at h
    simp at h
    obtain ⟨h1, h2⟩ := h
    subst h2
    exact Nat.le_refl _
  | FNC1_FIRST_POSITION =>
    simp only [decodeSegmentStep] at h
    simp at h
    obtain ⟨h1, h2⟩ := h
    subst h2
    exact Nat.le_refl _
  | FNC1_SECOND_POSITION =>
    simp only [decodeSegmentStep] at h
    simp at h
    obtain ⟨h1, h2⟩ := h
    subst h2
    exact Nat.le_refl _
  | STRUCTURED_APPEND =>
    simp only [decodeSegmentStep] at h
    split at h
    · exact Except.noConfusion h
    · rcases hr1 : readBits 8 bits with _ | ⟨v1, r1⟩ <;> rw [hr1] at h
      · exact Except.noConfusion h
      · simp at h
        rcases hr2 : readBits 8 r1 with _ | ⟨v2, rr⟩ <;> rw [hr2] at h
        · exact Except.noConfusion h
        · simp at h
          obtain ⟨h1, h2⟩ := h
          subst h2
          exact Nat.le_trans (readBits_len 8 r1 (v2, rr) hr2) (readBits_len 8 bits (v1, r1) hr1)
  | ECI =>
    simp only [decodeSegmentStep] at h
    rcases he : ParseECIValue bits with e | ⟨value, r1⟩ <;> rw [he] at h
    · exact Except.noConfusion h
    · simp at h
      split at h
      · exact Except.noConfusion h
      · simp at h
        obtain ⟨h1, h2⟩ := h
        subst h2
        exact ParseECIValue_len bits (value, r1) he
  | HANZI =>
    simp only [decodeSegmentStep] at h
    rcases hr1 : readBits 4 bits with _ | ⟨subset, r1⟩ <;> rw [hr1] at h
    · exact Except.noConfusion h
    · simp at h
      rcases hr2 : readBits (env.ccb Mode.HANZI) r1 with _ | ⟨countHanzi, rr⟩ <;> rw [hr2] at h
      · exact Except.noConfusion h
      · simp at h
        split at h
        · rcases hseg : DecodeHanziSegment env rr countHanzi st.result with e | ⟨res, r3⟩ <;>
            rw [hseg] at h
          · exact Except.noConfusion h
          · simp at h
            obtain ⟨h1, h2⟩ := h
            subst h2
            exact Nat.le_trans (DecodeHanziSegment_len env rr countHanzi st.result (res, r3) hseg)
              (Nat.le_trans (readBits_len _ r1 (countHanzi, rr) hr2)
                (readBits_len 4 bits (subset, r1) hr1))
        · simp at h
          obtain ⟨h1, h2⟩ := h
          subst h2
          exact Nat.le_trans (readBits_len _ r1 (countHanzi, rr) hr2)
            (readBits_len 4 bits (subset, r1) hr1)
  | NUMERIC =>
    simp only [decodeSegmentStep] at h
    rcases hr1 : readBits (env.ccb Mode.NUMERIC) bits with _ | ⟨count, r1⟩ <;> rw [hr1] at h
    · exact Except.noConfusion h
    · simp at h
      rcases hseg : DecodeNumericSegment r1 count st.result with e | ⟨res, rr⟩ <;> rw [hseg] at h
      · exact Except.noConfusion h
      · simp at h
        obtain ⟨h1, h2⟩ := h
        subst h2
        exact Nat.le_trans (DecodeNumericSegment_len r1 count st.result (res, rr) hseg)
          (readBits_len _ bits (count, r1) hr1)
  | ALPHANUMERIC =>
    simp only [decodeSegmentStep] at h
    rcases hr1 : readBits (env.ccb Mode.ALPHANUMERIC) bits with _ | ⟨count, r1⟩ <;> rw [hr1] at h
    · exact Except.noConfusion h
    · simp at h
      rcases hseg : DecodeAlphanumericSegment r1 count st.fc1InEffect st.result with e | ⟨res, rr⟩ <;>
        rw [hseg] at h
      · exact Except.noConfusion h
      · simp at h
        obtain ⟨h1, h2⟩ := h
        subst h2
        exact Nat.le_trans
          (DecodeAlphanumericSegment_len r1 count st.fc1InEffect st.result (res, rr) hseg)
          (readBits_len _ bits (count, r1) hr1)
  | BYTE =>
    simp only [decodeSegmentStep] at h
    rcases hr1 : readBits (env.ccb Mode.BYTE) bits with _ | ⟨count, r1⟩ <;> rw [hr1] at h
    · exact Except.noConfusion h
    · simp at h
      rcases hseg : DecodeByteSegment env r1 count st.currentCharset st.result st.byteSegments with
        e | ⟨res, segs, rr⟩ <;> rw [hseg] at h
      · exact Except.noConfusion h
      · simp at h
        obtain ⟨h1, h2⟩ := h
        subst h2
        exact Nat.le_trans
          (DecodeByteSegment_len env r1 count st.currentCharset st.result st.byteSegments
            (res, segs, rr) hseg)
          (readBits_len _ bits (count, r1) hr1)
  | KANJI =>
    simp only [decodeSegmentStep] at h
    rcases hr1 : readBits (env.ccb Mode.KANJI) bits with _ | ⟨count, r1⟩ <;> rw [hr1] at h
    · exact Except.noConfusion h
    · simp at h
      rcases hseg : DecodeKanjiSegment env r1 count st.result with e | ⟨res, rr⟩ <;> rw [hseg] at h
      · exact Except.noConfusion h
      · simp at h
        obtain ⟨h1, h2⟩ := h
        subst h2
        exact Nat.le_trans (DecodeKanjiSegment_len env r1 count st.result (res, rr) hseg)
          (readBits_len _ bits (count, r1) hr1)

/-- Fuel adequacy for the bitstream loop: any two fuels strictly above the
number of remaining bits give the same outcome, so the fuel
`bits.length + 1` passed by `DecodeBitStream` is enough — every iteration
consumes at least the 4 mode bits. -/
theorem decodeLoopF_fuel_irrelevant (env : Env) :
    ∀ (n : Nat) (bits : List Bool) (st : LoopState) (f g : Nat),
      bits.length ≤ n → bits.length < f → bits.length < g →
      decodeLoopF env f bits st = decodeLoopF env g bits st := by
  intro n
  induction n with
  | zero =>
    intro bits st f g hn hf hg
    obtain ⟨f', rfl⟩ : ∃ f', f = f' + 1 := ⟨f - 1, by omega⟩
    obtain ⟨g', rfl⟩ : ∃ g', g = g' + 1 := ⟨g - 1, by omega⟩
    have h4 : bits.length < 4 := by omega
    simp [decodeLoopF, h4]
  | succ n ih =>
    intro bits st f g hn hf hg
    obtain ⟨f', rfl⟩ : ∃ f', f = f' + 1 := ⟨f - 1, by omega⟩
    obtain ⟨g', rfl⟩ : ∃ g', g = g' + 1 := ⟨g - 1, by omega⟩
    by_cases h4 : bits.length < 4
    · simp [decodeLoopF, h4]
    · rcases hrb : readBits 4 bits with _ | ⟨mv, r0⟩
      · simp [decodeLoopF, h4, hrb]
      · have hr0 : r0.length = bits.length - 4 := readBits_len_eq 4 bits (mv, r0) hrb
        rcases hm : ModeForBits mv with _ | m
        · simp [decodeLoopF, h4, hrb, hm]
        · by_cases hmt : m = Mode.TERMINATOR
          · subst hmt
            simp [decodeLoopF, h4, hrb, hm]
          · rcases hstep : decodeSegmentStep env m r0 st with e | ⟨st2, r2⟩
            · cases m <;> simp [decodeLoopF, h4, hrb, hm, hstep] at hmt ⊢
            · have hr2 : r2.length ≤ r0.length :=
                decodeSegmentStep_len env m r0 st (st2, r2) hstep
              have hrec := ih r2 st2 f' g' (by omega) (by omega) (by omega)
              cases m <;> simp [decodeLoopF, h4, hrb, hm, hstep, hrec] at hmt ⊢

/-- Digit entries of the alphanumeric table: index `d < 10` holds the ASCII
digit `48 + d`. -/
theorem toAlpha_digit : ∀ d, d < 10 → ToAlphaNumericChar d = some (48 + d) := by
  decide

/-- No segment dispatch ever clears the FNC1 flag: if the flag is set in the
incoming state it is set in the outgoing state of `decodeSegmentStep`. -/
theorem decodeSegmentStep_fc1 (env : Env) (mode : Mode) (bits : List Bool)
    (st st' : LoopState) (r' : List Bool)
    (h : decodeSegmentStep env mode bits st = .ok (st', r'))
    (hf : st.fc1InEffect = true) : st'.fc1InEffect = true := by
  cases mode <;> simp only [decodeSegmentStep] at h <;>
    repeat' split at h
  all_goals first
    | exact Except.noConfusion h
    | (injection h with h1; cases h1; simp [hf])

/-- Claim C8: whenever fewer than 4 bits remain at a segment boundary, the
bitstream loop treats this as an implicit TERMINATOR and ends successfully
with the current state, instead of failing with an insufficient-bits
FormatError. -/
theorem c8_implicit_terminator (env : Env) (fuel : Nat) (bits : List Bool)
    (st : LoopState) (h : bits.length < 4) :
    decodeLoopF env (fuel + 1) bits st = .ok st := by
  simp [decodeLoopF, h]

/-- Witness for C8 at a concrete 3-bit stream. -/
theorem c8_witness :
    ([true, true, false] : List Bool).length < 4 ∧
      decodeLoopF envW 1 [true, true, false] initialLoopState =
        .ok initialLoopState :=
  ⟨by decide, c8_implicit_terminator envW 0 [true, true, false] initialLoopState (by decide)⟩

/-- Claim C1, evaluation of the code at the failing input: the alphanumeric
segment `A%%BC` (pairs 488 and 1721, trailing 12) decodes to the character
buffer `[65, 37, 37, 66, 67]`; with FNC1 in effect the post-processing of
the source erases everything after the `%%` pair (`buffer.erase(i + 1)`
erases to the end of the string), so the segment yields `A%` (`[65, 37]`)
instead of the `A%BC` (`[65, 37, 66, 67]`) the claim requires. -/
theorem c1_alphanumeric_fnc1_eval :
    DecodeAlphanumericSegment (natBits 11 488 ++ natBits 11 1721 ++ natBits 6 12)
        5 false [] = .ok ([65, 37, 37, 66, 67], []) ∧
      Fnc1Massage [] [65, 37, 37, 66, 67] = [65, 37] ∧
      DecodeAlphanumericSegment (natBits 11 488 ++ natBits 11 1721 ++ natBits 6 12)
        5 true [] = .ok ([65, 37], []) :=
  ⟨rfl, rfl, rfl⟩

/-- One non-terminator iteration of the bitstream loop, written as an
equation: with at least 4 bits available, a mode indicator `mv` whose mode
is not TERMINATOR, and a successful segment dispatch, the loop continues on
the dispatch's remaining bits and state. -/
theorem decodeLoopF_step (env : Env) (fuel : Nat) (bits : List Bool)
    (st : LoopState) (mv : Nat) (r0 : List Bool) (m : Mode)
    (st2 : LoopState) (r2 : List Bool)
    (h4 : ¬ bits.length < 4)
    (hrb : readBits 4 bits = some (mv, r0))
    (hm : ModeForBits mv = some m)
    (hmt : ¬ m = Mode.TERMINATOR)
    (hstep : decodeSegmentStep env m r0 st = .ok (st2, r2)) :
    decodeLoopF env (fuel + 1) bits st = decodeLoopF env fuel r2 st2 := by
  cases m <;> simp [decodeLoopF, h4, hrb, hm, hstep] at hmt ⊢

/-- Claim C2 as amended: a FNC1 (second position) mode indicator sets the
FNC1 flag and consumes nothing else; the loop continues on the very next bit
after the 4 mode bits, with the state otherwise unchanged. -/
theorem c2_fnc1_second_sets_flag_only (env : Env) (fuel : Nat)
    (rest : List Bool) (st : LoopState) :
    decodeLoopF env (fuel + 1) ([true, false, false, true] ++ rest) st =
      decodeLoopF env fuel rest {st with fc1InEffect := true} := by
  have h4 : ¬ ([true, false, false, true] ++ rest).length < 4 := by
    simp only [List.length_append, List.length_cons, List.length_nil]
    omega
  exact decodeLoopF_step env fuel _ st 9 rest Mode.FNC1_SECOND_POSITION
    {st with fc1InEffect := true} rest h4
    (readBits_exact 4 [true, false, false, true] rest rfl (by decide) (by decide))
    rfl (by decide) rfl

/-- Claim C2, counterexample to the claim as stated: on the single byte
0x90 (FNC1 second position followed by a TERMINATOR) the source's loop
succeeds with the FNC1 flag set — it reads the next mode indicator directly
after the 4 mode bits — while a decoder that consumed an 8-bit application
indicator (`decodeLoopC2F`, the spec's words) runs out of bits and fails
with FormatError; the two disagree, refuting the claimed behaviour. -/
theorem c2_counterexample :
    decodeLoopF envW 3 (natBits 8 0x90) initialLoopState =
        .ok ⟨[], [], -1, -1, CharacterSet.Unknown, true⟩ ∧
      decodeLoopC2F envW 3 (natBits 8 0x90) initialLoopState =
        .error ErrorStatus.FormatError ∧
      decodeLoopF envW 3 (natBits 8 0x90) initialLoopState ≠
        decodeLoopC2F envW 3 (natBits 8 0x90) initialLoopState :=
  ⟨rfl, rfl, fun h => Except.noConfusion h⟩

/-- Claim C5: a HANZI segment whose 4-bit subset indicator is not 1 (GB2312)
consumes the subset indicator and the character-count field, emits no
output, and the loop continues decoding the rest of the stream with the
state unchanged — no error is returned for the segment. (The character
count width is the external `CharacterCountBits(HANZI, version)`, a
`readBits` width, hence between 1 and 32.) -/
theorem c5_hanzi_subset_skip (env : Env) (fuel : Nat) (st : LoopState)
    (subsetBits countBits rest : List Bool)
    (h4 : subsetBits.length = 4) (hsub : bitsToNat subsetBits ≠ GB2312_SUBSET)
    (hc : countBits.length = env.ccb Mode.HANZI)
    (hc1 : 1 ≤ env.ccb Mode.HANZI) (hc32 : env.ccb Mode.HANZI ≤ 32) :
    decodeLoopF env (fuel + 1)
        ([true, true, false, true] ++ (subsetBits ++ (countBits ++ rest))) st =
      decodeLoopF env fuel rest st := by
  have hm : readBits 4 ([true, true, false, true] ++ (subsetBits ++ (countBits ++ rest))) =
      some (13, subsetBits ++ (countBits ++ rest)) :=
    readBits_exact 4 [true, true, false, true] _ rfl (by decide) (by decide)
  have hs : readBits 4 (subsetBits ++ (countBits ++ rest)) =
      some (bitsToNat subsetBits, countBits ++ rest) :=
    readBits_exact 4 subsetBits _ h4 (by decide) (by decide)
  have hcnt : readBits (env.ccb Mode.HANZI) (countBits ++ rest) =
      some (bitsToNat countBits, rest) :=
    readBits_exact _ countBits _ hc hc1 hc32
  have h4 : ¬ ([true, true, false, true] ++ (subsetBits ++ (countBits ++ rest))).length < 4 := by
    simp only [List.length_append, List.length_cons, List.length_nil]
    omega
  have hstep : decodeSegmentStep env Mode.HANZI (subsetBits ++ (countBits ++ rest)) st =
      .ok (st, rest) := by
    simp [decodeSegmentStep, hs, hcnt, hsub]
  exact decodeLoopF_step env fuel _ st 13 _ Mode.HANZI st rest h4 hm rfl (by decide) hstep

/-- Witness for C5: subset indicator 2, an 8-bit count field, empty rest. -/
theorem c5_witness :
    ([false, false, true, false] : List Bool).length = 4 ∧
      bitsToNat [false, false, true, false] ≠ GB2312_SUBSET ∧
      (natBits 8 3).length = envW.ccb Mode.HANZI ∧
      decodeLoopF envW 2
          ([true, true, false, true] ++ ([false, false, true, false] ++ (natBits 8 3 ++ []))) initialLoopState =
        decodeLoopF envW 1 [] initialLoopState :=
  ⟨by decide, by decide, by decide,
    c5_hanzi_subset_skip envW 1 initialLoopState [false, false, true, false]
      (natBits 8 3) [] (by decide) (by decide) (by decide) (by decide) (by decide)⟩

/-- Claim C7: a BYTE segment with character count 0 succeeds, reads no bits,
appends nothing to the text (the external text decoder appends the decoding
of an empty byte array, which is empty — the spec's contract for
`TextDecoder::Append`), and pushes one empty entry onto `byteSegments`. -/
theorem c7_byte_count_zero (env : Env) (bits : List Bool) (cs : CharacterSet)
    (result : List Nat) (segs : List (List Nat))
    (hdec : ∀ c, env.dec c [] = []) :
    DecodeByteSegment env bits 0 cs result segs = .ok (result, segs ++ [[]], bits) := by
  simp [DecodeByteSegment, readByteList, hdec]

/-- Witness for C7 at a concrete input. -/
theorem c7_witness :
    (∀ c, envW.dec c [] = []) ∧
      DecodeByteSegment envW [true, false] 0 CharacterSet.Unknown [7] [[1]] =
        .ok ([7], [[1], []], [true, false]) :=
  ⟨fun _ => rfl,
    c7_byte_count_zero envW [true, false] CharacterSet.Unknown [7] [[1]] (fun _ => rfl)⟩

/-- Claim C10: the FNC1 flag is monotone across the bitstream loop — from
any segment boundary at which the flag is set (in particular right after a
FNC1 segment set it), every later state of the loop still has it set, so
every subsequent alphanumeric segment is decoded with FNC1 in effect. -/
theorem c10_fnc1_monotone (env : Env) :
    ∀ (fuel : Nat) (bits : List Bool) (st st' : LoopState),
      st.fc1InEffect = true → decodeLoopF env fuel bits st = .ok st' →
      st'.fc1InEffect = true := by
  intro fuel
  induction fuel with
  | zero =>
    intro bits st st' hf h
    exact Except.noConfusion h
  | succ f ih =>
    intro bits st st' hf h
    simp only [decodeLoopF] at h
    split at h
    · injection h with h1; cases h1; exact hf
    · split at h
      · exact Except.noConfusion h
      · split at h
        · exact Except.noConfusion h
        · injection h with h1; cases h1; exact hf
        · split at h
          · exact Except.noConfusion h
          · rename_i hstep
            exact ih _ _ _ (decodeSegmentStep_fc1 _ _ _ _ _ _ hstep hf) h

/-- Claim C3: for every block, (a) a successful Reed-Solomon pass replaces
the first `numDataCodewords` bytes of the block buffer with the corrected
data codewords and leaves the EC suffix alone, (b) a Reed-Solomon failure
leaves the buffer completely unchanged and is remapped to `ChecksumError`,
and (c) in the block-correction loop of `DoDecode` the first failing block
makes the whole decode fail with `ChecksumError`. All parts hold for every
behaviour `rs` of the external Reed-Solomon decoder. -/
theorem c3_correct_errors (rs : List Nat → Nat → ErrorStatus × List Nat) :
    (∀ (cw : List Nat) (k : Nat) (ints : List Nat),
      rs (cw.map (fun b => b &&& 0xFF)) (cw.length - k) = (ErrorStatus.NoError, ints) →
      CorrectErrors rs cw k =
        (ErrorStatus.NoError, (ints.take k).map (fun v => v % 256) ++ cw.drop k)) ∧
    (∀ (cw : List Nat) (k : Nat) (ints : List Nat),
      rs (cw.map (fun b => b &&& 0xFF)) (cw.length - k) = (ErrorStatus.ReedSolomonError, ints) →
      CorrectErrors rs cw k = (ErrorStatus.ChecksumError, cw)) ∧
    (∀ (pre : List DataBlock) (b : DataBlock) (suf : List DataBlock),
      (∀ b' ∈ pre, StatusIsOK (CorrectErrors rs b'.codewords b'.numDataCodewords).1 = true) →
      (CorrectErrors rs b.codewords b.numDataCodewords).1 = ErrorStatus.ChecksumError →
      DoDecodeBlocks rs (pre ++ b :: suf) = .error ErrorStatus.ChecksumError) := by
  refine ⟨?_, ?_, ?_⟩
  · intro cw k ints h
    simp [CorrectErrors, h, StatusIsOK]
  · intro cw k ints h
    simp [CorrectErrors, h, StatusIsOK, StatusIsKindOf]
  · intro pre b suf hpre hb
    induction pre with
    | nil =>
      simp [DoDecodeBlocks, StatusIsOK, hb]
    | cons p pre ih =>
      have hp := hpre p (by simp)
      have ht := ih (fun b' hb' => hpre b' (by simp [hb']))
      simp [DoDecodeBlocks, hp, ht]

/-- Witness for C3, exercising the failure parts at a concrete block: the
always-failing Reed-Solomon stand-in remaps to `ChecksumError`, the buffer
is unchanged, and the two-block stream fails as a whole. -/
theorem c3_witness :
    rsFailW ([1, 2, 3, 4].map (fun b => b &&& 0xFF)) ([1, 2, 3, 4].length - 2) =
        (ErrorStatus.ReedSolomonError, [1, 2, 3, 4]) ∧
      CorrectErrors rsFailW [1, 2, 3, 4] 2 = (ErrorStatus.ChecksumError, [1, 2, 3, 4]) ∧
      DoDecodeBlocks rsFailW [⟨2, [1, 2, 3, 4]⟩, ⟨1, [5, 6]⟩] =
        .error ErrorStatus.ChecksumError :=
  ⟨rfl,
    (c3_correct_errors rsFailW).2.1 [1, 2, 3, 4] 2 [1, 2, 3, 4] rfl,
    (c3_correct_errors rsFailW).2.2 [] ⟨2, [1, 2, 3, 4]⟩ [⟨1, [5, 6]⟩]
      (fun b' hb' => absurd hb' (List.not_mem_nil b')) rfl⟩

/-- The second (mirrored) decode attempt never touches the caller's matrix:
its observable output carries the matrix the driver was called with. -/
theorem secondDecodeAttempt_callerMatrix {μ ν ρ : Type} (ops : DriverOps μ ν ρ)
    (bitsIn bits : μ) (res : ρ) :
    (secondDecodeAttempt ops bitsIn bits res).callerMatrix = bitsIn := by
  simp only [secondDecodeAttempt]
  cases hp : ops.parseVersionInfo bits true with
  | error e => rfl
  | ok vf2 =>
    cases hd : (ops.doDecode (ops.reMask (ops.mirror bits) vf2) vf2 res).1 <;> simp [hd]

/-- Claim C9: `Decoder::Decode` leaves the caller's input matrix unchanged
whether it succeeds or fails — the clone made at entry receives every
unmasking, re-masking and mirroring, on every control path of the driver
(first parse failed, first decode succeeded, first decode failed with or
without a successful mirrored retry). -/
theorem c9_input_matrix_unchanged {μ ν ρ : Type} (ops : DriverOps μ ν ρ)
    (bitsIn : μ) (res0 : ρ) :
    (DecoderDecode ops bitsIn res0).callerMatrix = bitsIn := by
  simp only [DecoderDecode]
  cases h1 : ops.parseVersionInfo bitsIn false with
  | error e => exact secondDecodeAttempt_callerMatrix ops bitsIn bitsIn res0
  | ok vf1 =>
    cases h2 : (ops.doDecode (ops.reMask bitsIn vf1) vf1 res0).1 <;>
      simp [h2, secondDecodeAttempt_callerMatrix]

/-- First-attempt success path of the driver: parse and decode in the
non-mirrored orientation succeed, so the driver returns that result at once,
without the mirrored annotation. -/
theorem decoderDecode_first_ok {μ ν ρ : Type} (ops : DriverOps μ ν ρ)
    (bitsIn : μ) (res0 : ρ) (vf1 : ν) (res1 : ρ)
    (h1 : ops.parseVersionInfo bitsIn false = .ok vf1)
    (h2 : ops.doDecode (ops.reMask bitsIn vf1) vf1 res0 = (ErrorStatus.NoError, res1)) :
    DecoderDecode ops bitsIn res0 = ⟨bitsIn, ErrorStatus.NoError, res1, false⟩ := by
  simp [DecoderDecode, h1, h2]

/-- Mirrored-attempt success equation: when the mirrored parse and the
decode of the mirrored, unmasked matrix succeed, the result is annotated
with `mirrored = true`. -/
theorem secondDecodeAttempt_ok {μ ν ρ : Type} (ops : DriverOps μ ν ρ)
    (bitsIn bits : μ) (res : ρ) (vf2 : ν) (res2 : ρ)
    (h1 : ops.parseVersionInfo bits true = .ok vf2)
    (h2 : ops.doDecode (ops.reMask (ops.mirror bits) vf2) vf2 res = (ErrorStatus.NoError, res2)) :
    secondDecodeAttempt ops bitsIn bits res = ⟨bitsIn, ErrorStatus.NoError, res2, true⟩ := by
  simp [secondDecodeAttempt, h1, h2]

/-- A failed non-mirrored parse hands control to the mirrored attempt on the
unreverted clone. -/
theorem decoderDecode_parse_failed {μ ν ρ : Type} (ops : DriverOps μ ν ρ)
    (bitsIn : μ) (res0 : ρ) (e : ErrorStatus)
    (h1 : ops.parseVersionInfo bitsIn false = .error e) :
    DecoderDecode ops bitsIn res0 = secondDecodeAttempt ops bitsIn bitsIn res0 := by
  simp [DecoderDecode, h1]

/-- A failed non-mirrored decode hands control to the mirrored attempt on
the re-masked (reverted) clone, carrying the result object the failed
decode left behind. -/
theorem decoderDecode_decode_failed {μ ν ρ : Type} (ops : DriverOps μ ν ρ)
    (bitsIn : μ) (res0 : ρ) (vf1 : ν) (e : ErrorStatus) (res1 : ρ)
    (h1 : ops.parseVersionInfo bitsIn false = .ok vf1)
    (h2 : ops.doDecode (ops.reMask bitsIn vf1) vf1 res0 = (e, res1))
    (he : ¬ e = ErrorStatus.NoError) :
    DecoderDecode ops bitsIn res0 =
      secondDecodeAttempt ops bitsIn (ops.reMask (ops.reMask bitsIn vf1) vf1) res1 := by
  cases e <;> simp [DecoderDecode, h1, h2] at he ⊢

/-- The driver never annotates a first-attempt success: if the output is
annotated `mirrored`, the non-mirrored attempt did not succeed. -/
theorem decoderDecode_mirrored_implies_first_failed {μ ν ρ : Type}
    (ops : DriverOps μ ν ρ) (bitsIn : μ) (res0 : ρ)
    (hm : (DecoderDecode ops bitsIn res0).mirrored = true) :
    ∀ (vf1 : ν) (res1 : ρ), ops.parseVersionInfo bitsIn false = .ok vf1 →
      ops.doDecode (ops.reMask bitsIn vf1) vf1 res0 ≠ (ErrorStatus.NoError, res1) := by
  intro vf1 res1 h1 h2
  rw [decoderDecode_first_ok ops bitsIn res0 vf1 res1 h1 h2] at hm
  exact Bool.noConfusion hm

/-- Claim C4: the mirrored decode attempt is made only after the
non-mirrored attempt has failed, and a mirrored success carries the
`mirrored = true` annotation while a first-attempt success returns at once
without it. The parts are: (1) first-attempt success returns immediately,
unannotated; (2) a mirrored-annotated output implies the first attempt did
not succeed; (3) a successful mirrored attempt is annotated
`mirrored = true`; (4) and (5) the mirrored attempt is reached exactly from
the two first-attempt failure paths. -/
theorem c4_mirror_retry {μ ν ρ : Type} (ops : DriverOps μ ν ρ)
    (bitsIn : μ) (res0 : ρ) :
    (∀ (vf1 : ν) (res1 : ρ),
      ops.parseVersionInfo bitsIn false = .ok vf1 →
      ops.doDecode (ops.reMask bitsIn vf1) vf1 res0 = (ErrorStatus.NoError, res1) →
      DecoderDecode ops bitsIn res0 = ⟨bitsIn, ErrorStatus.NoError, res1, false⟩) ∧
    ((DecoderDecode ops bitsIn res0).mirrored = true →
      ∀ (vf1 : ν) (res1 : ρ), ops.parseVersionInfo bitsIn false = .ok vf1 →
        ops.doDecode (ops.reMask bitsIn vf1) vf1 res0 ≠ (ErrorStatus.NoError, res1)) ∧
    (∀ (bits : μ) (res : ρ) (vf2 : ν) (res2 : ρ),
      ops.parseVersionInfo bits true = .ok vf2 →
      ops.doDecode (ops.reMask (ops.mirror bits) vf2) vf2 res = (ErrorStatus.NoError, res2) →
      secondDecodeAttempt ops bitsIn bits res = ⟨bitsIn, ErrorStatus.NoError, res2, true⟩) ∧
    (∀ (e : ErrorStatus), ops.parseVersionInfo bitsIn false = .error e →
      DecoderDecode ops bitsIn res0 = secondDecodeAttempt ops bitsIn bitsIn res0) ∧
    (∀ (vf1 : ν) (e : ErrorStatus) (res1 : ρ),
      ops.parseVersionInfo bitsIn false = .ok vf1 →
      ops.doDecode (ops.reMask bitsIn vf1) vf1 res0 = (e, res1) →
      ¬ e = ErrorStatus.NoError →
      DecoderDecode ops bitsIn res0 =
        secondDecodeAttempt ops bitsIn (ops.reMask (ops.reMask bitsIn vf1) vf1) res1) :=
  ⟨decoderDecode_first_ok ops bitsIn res0,
    decoderDecode_mirrored_implies_first_failed ops bitsIn res0,
    fun bits res vf2 res2 h1 h2 => secondDecodeAttempt_ok ops bitsIn bits res vf2 res2 h1 h2,
    fun e h1 => decoderDecode_parse_failed ops bitsIn res0 e h1,
    fun vf1 e res1 h1 h2 he => decoderDecode_decode_failed ops bitsIn res0 vf1 e res1 h1 h2 he⟩

/-- Witness for C4 at concrete driver collaborators: with `opsW` (both
parses succeed, decodes always succeed) the first attempt succeeds and the
driver returns its result unannotated. -/
theorem c4_witness :
    opsW.parseVersionInfo 3 false = .ok 0 ∧
      opsW.doDecode (opsW.reMask 3 0) 0 10 = (ErrorStatus.NoError, 15) ∧
      DecoderDecode opsW 3 10 = ⟨3, ErrorStatus.NoError, 15, false⟩ :=
  ⟨rfl, rfl, (c4_mirror_retry opsW 3 10).1 0 15 rfl rfl⟩

/-- The numeric reading loop of the source agrees with the spec's group
description, generalized over the accumulated buffer: wrapping the loop's
outcome with the final `AppendLatin1` equals the spec-side decoder run on
the result extended by the buffer. -/
theorem numericLoop_spec (c : Nat) :
    ∀ (bits : List Bool) (buffer result : List Nat),
      (match DecodeNumericLoop bits c buffer with
        | .error e => .error e
        | .ok (buf, r) => .ok (result ++ buf, r)) =
        NumericSegmentSpec bits c (result ++ buffer) := by
  induction c using Nat.strong_induction_on with
  | _ c ih =>
    intro bits buffer result
    rcases c with _ | (_ | (_ | k))
    · simp [DecodeNumericLoop, NumericSegmentSpec, readNumTriples]
    · simp only [DecodeNumericLoop, NumericSegmentSpec, readNumTriples]
      by_cases h4 : bits.length < 4
      · simp [h4]
      · simp only [h4, if_neg, ite_false]
        cases hrb : readBits 4 bits with
        | none => simp
        | some p =>
          obtain ⟨v, r⟩ := p
          by_cases hv : 10 ≤ v
          · simp [hv]
          · simp [hv, toAlpha_digit v (by omega)]
    · simp only [DecodeNumericLoop, NumericSegmentSpec, readNumTriples]
      by_cases h7 : bits.length < 7
      · simp [h7]
      · simp only [h7, if_neg, ite_false]
        cases hrb : readBits 7 bits with
        | none => simp
        | some p =>
          obtain ⟨v, r⟩ := p
          by_cases hv : 100 ≤ v
          · simp [hv]
          · simp [hv, toAlpha_digit (v / 10) (by omega), toAlpha_digit (v % 10) (by omega)]
    · have h3 : (k + 3) / 3 = k / 3 + 1 := Nat.add_div_right k (by norm_num)
      have hm3 : (k + 3) % 3 = k % 3 := Nat.add_mod_right k 3
      by_cases h10 : bits.length < 10
      · simp [DecodeNumericLoop, NumericSegmentSpec, readNumTriples, h3, hm3, h10]
      · cases hrb : readBits 10 bits with
        | none => simp [DecodeNumericLoop, NumericSegmentSpec, readNumTriples, h3, hm3, h10, hrb]
        | some p =>
          obtain ⟨v, r⟩ := p
          by_cases hv : 1000 ≤ v
          · simp [DecodeNumericLoop, NumericSegmentSpec, readNumTriples, h3, hm3, h10, hrb, hv]
          · have hstepL : DecodeNumericLoop bits (k + 3) buffer =
                DecodeNumericLoop r k
                  (buffer ++ [48 + v / 100, 48 + v / 10 % 10, 48 + v % 10]) := by
              simp [DecodeNumericLoop, h10, hrb, hv,
                toAlpha_digit (v / 100) (by omega),
                toAlpha_digit (v / 10 % 10) (by omega),
                toAlpha_digit (v % 10) (by omega)]
            have hstepR : readNumTriples (k / 3 + 1) bits =
                match readNumTriples (k / 3) r with
                | .error e => .error e
                | .ok (ds, r2) =>
                  .ok ([48 + v / 100, 48 + v / 10 % 10, 48 + v % 10] ++ ds, r2) := by
              simp [readNumTriples, h10, hrb, hv]
            have hrec := ih k (by omega) r
              (buffer ++ [48 + v / 100, 48 + v / 10 % 10, 48 + v % 10]) result
            rw [hstepL, hrec]
            simp only [NumericSegmentSpec, h3, hm3, hstepR]
            cases hds : readNumTriples (k / 3) r with
            | error e => simp
            | ok q =>
              obtain ⟨ds, r2⟩ := q
              by_cases hk2 : k % 3 = 2
              · simp only [hk2, if_true, ite_true, if_pos]
                by_cases h7 : r2.length < 7
                · simp [h7]
                · cases hrb7 : readBits 7 r2 with
                  | none => simp [h7, hrb7]
                  | some q7 =>
                    obtain ⟨w, r3⟩ := q7
                    by_cases hw : 100 ≤ w
                    · simp [h7, hrb7, hw]
                    · simp [h7, hrb7, hw, List.append_assoc]
              · by_cases hk1 : k % 3 = 1
                · simp only [hk2, hk1, if_false, ite_false, if_true, ite_true, if_pos, if_neg]
                  by_cases h4 : r2.length < 4
                  · simp [hk2, hk1, h4]
                  · cases hrb4 : readBits 4 r2 with
                    | none => simp [hk2, hk1, h4, hrb4]
                    | some q4 =>
                      obtain ⟨w, r3⟩ := q4
                      by_cases hw : 10 ≤ w
                      · simp [hk2, hk1, h4, hrb4, hw]
                      · simp [hk2, hk1, h4, hrb4, hw, List.append_assoc]
                · simp [hk2, hk1, List.append_assoc]

/-- Claim C6: the source's NUMERIC segment decoder equals, on every bit
stream, count and accumulated result, the decoder described by the spec:
read count/3 10-bit three-digit groups (each below 1000), then a 7-bit
group below 100 for a trailing pair of digits or a 4-bit group below 10 for
a trailing single digit — with FormatError on any violated bound or bit
shortage — and append the ASCII digits onto the result as Latin-1. -/
theorem c6_numeric_segment_spec_equiv (bits : List Bool) (count : Nat)
    (result : List Nat) :
    DecodeNumericSegment bits count result = NumericSegmentSpec bits count result := by
  have h := numericLoop_spec count bits [] result
  simpa [DecodeNumericSegment] using h

/-- Witness for C10: a stream that decodes one numeric digit after the flag
is already set. -/
theorem c10_witness :
    (⟨[], [], -1, -1, CharacterSet.Unknown, true⟩ : LoopState).fc1InEffect = true ∧
      (decodeLoopF envW 2 (natBits 4 1 ++ natBits 8 1 ++ natBits 4 7)
          ⟨[], [], -1, -1, CharacterSet.Unknown, true⟩ =
        .ok ⟨[55], [], -1, -1, CharacterSet.Unknown, true⟩) ∧
      (⟨[55], [], -1, -1, CharacterSet.Unknown, true⟩ : LoopState).fc1InEffect = true :=
  ⟨rfl, rfl,
    c10_fnc1_monotone envW 2 (natBits 4 1 ++ natBits 8 1 ++ natBits 4 7)
      ⟨[], [], -1, -1, CharacterSet.Unknown, true⟩
      ⟨[55], [], -1, -1, CharacterSet.Unknown, true⟩ rfl rfl⟩
